import Mathlib

/-!
# piperesolver: the pipe bridge of package `remotes`

A shallow embedding of `src/pkg/remotes/pipe.go`.

* Go pointer receivers become explicit state passing: a method on `*pipeWriter`
  takes the writer's state and returns the state it leaves behind.
* The pipes created by Go's `io.Pipe()` live in a `PipeHeap`; a `*io.PipeWriter`
  or `*io.PipeReader` is `Option` of a handle, `none` being the nil pointer.
* A call either returns or panics (`Outcome`); fields assigned before a panic
  stay assigned.
* `int64` values are integers; the one arithmetic operation of the file, `+=`
  in `Write`, wraps to 64 bits (`wrapInt64`).
* What the file cannot decide by itself is a parameter: the clock reading of
  `time.Now()`, and the `(n, err)` that an open pipe answers to a write (it
  depends on the reader running in another goroutine).
-/

namespace Remotes

/-! ## Go values -/

/-- Go's `error` interface value, identified by its message; `nil` is `none` of
`Option error`. -/
abbrev error := String

/-- A call either returns a value or panics. -/
inductive Outcome (α : Type) where
  | returned (v : α)
  | panicked
  deriving DecidableEq, Repr

/-- An instant of `time.Time`; the zero value is `0`. -/
abbrev Time := Nat

/-- Go's `int64(x)` on an integer that may have left the 64-bit range: two's
complement wrap-around, as `+=` on an `int64` does. -/
def wrapInt64 (x : Int) : Int := (x + 2 ^ 63) % 2 ^ 64 - 2 ^ 63

/-- The error `io.ErrClosedPipe`. -/
def ErrClosedPipe : error := "io: read/write on closed pipe"

/-! ## Imported types -/

/-- Modelled from the spec: `digest.Digest` of opencontainers/go-digest is
declared outside the repository; it is a string type whose zero value is the
empty digest. -/
abbrev digest.Digest := String

/-- Modelled from the spec: `ocispec.Descriptor` is declared outside the
repository; spec section 3 gives it media type, digest, size in bytes and
annotations (a string to string mapping, here an association list). -/
structure ocispec.Descriptor where
  MediaType : String := ""
  Digest : digest.Digest := ""
  Size : Int := 0
  Annotations : List (String × String) := []
  deriving DecidableEq, Repr

/-- Modelled from the spec: `content.Status` of containerd is declared outside
the repository; spec section 3 gives it the reference, the total, the offset, the
expected digest and the last-update timestamp (containerd also keeps the start
time, which this file never assigns). -/
structure content.Status where
  Ref : String := ""
  Offset : Int := 0
  Total : Int := 0
  Expected : digest.Digest := ""
  StartedAt : Time := 0
  UpdatedAt : Time := 0
  deriving DecidableEq, Repr

/-- Modelled from the spec: `content.Info` of containerd is declared outside the
repository; spec section 6 asks of it at minimum a labels mapping, the other
fields are those an option may also set. -/
structure content.Info where
  Digest : digest.Digest := ""
  Size : Int := 0
  CreatedAt : Time := 0
  UpdatedAt : Time := 0
  Labels : List (String × String) := []
  deriving DecidableEq, Repr

/-- Modelled from the spec: `content.Opt` is declared outside the repository; it
is `func(*Info) error`, a function that may change the record it is handed and
returns an error or nil. -/
abbrev content.Opt := content.Info → content.Info × Option error

/-- Modelled from the spec: `remotes.Resolver` is declared outside the
repository; the one method used here is `Resolve(ref)`, which answers a name, a
descriptor and an error. -/
abbrev remotes.Resolver := String → String × ocispec.Descriptor × Option error

/-! ## Go's `io.Pipe` -/

/-- Modelled from the spec: the rendezvous channel is Go's `io.Pipe`, library
code outside the repository. The pipes created so far are numbered `0 .. next-1`, and
`closedW` lists those whose write end has been closed. -/
structure PipeHeap where
  next : Nat := 0
  closedW : List Nat := []
  deriving DecidableEq, Repr

/-- The value behind a non-nil `*io.PipeReader`: the pipe it reads from. -/
structure io.PipeReader where
  pipe : Nat
  deriving DecidableEq, Repr

/-- The value behind a non-nil `*io.PipeWriter`: the pipe it writes to. -/
structure io.PipeWriter where
  pipe : Nat
  deriving DecidableEq, Repr

/-- Whether the write end of pipe `id` has been closed. -/
def PipeHeap.writeClosed (h : PipeHeap) (id : Nat) : Bool := h.closedW.contains id

/-- Modelled from the spec: Go's `io.Pipe()` is outside the repository; it makes a
new pipe, read end and write end created together, both open. -/
def io.Pipe (h : PipeHeap) : PipeHeap × io.PipeReader × io.PipeWriter :=
  ({ h with next := h.next + 1 }, { pipe := h.next }, { pipe := h.next })

/-- Modelled from the spec: Go's `(*io.PipeWriter).Close` is outside the
repository; it closes the write end and returns nil, also when the end was closed
already (once-only close); on a nil pointer it panics. -/
def io.PipeWriter.Close (w : Option io.PipeWriter) (h : PipeHeap) :
    PipeHeap × Outcome (Option error) :=
  match w with
  | none => (h, .panicked)
  | some pw =>
    if h.writeClosed pw.pipe then (h, .returned none)
    else ({ h with closedW := pw.pipe :: h.closedW }, .returned none)

/-- Modelled from the spec: Go's `(*io.PipeWriter).Write` is outside the
repository; on a nil pointer it panics; once the write end is closed it accepts
nothing and fails with `ErrClosedPipe`; on an open pipe it answers `accepted`,
the count and error that the reading side decides. -/
def io.PipeWriter.Write (w : Option io.PipeWriter) (h : PipeHeap) (_data : List UInt8)
    (accepted : Int × Option error) : Outcome (Int × Option error) :=
  match w with
  | none => .panicked
  | some pw =>
    if h.writeClosed pw.pipe then .returned (0, some ErrClosedPipe)
    else .returned accepted

/-! ## `pipe.go` -/

/-- The struct `pipeResolver` (pipe.go 34-39). -/
structure pipeResolver where
  desc : ocispec.Descriptor := {}
  writer : Option io.PipeWriter := none
  reader : Option io.PipeReader := none
  Resolver : remotes.Resolver

/-- The struct `pipeWriter` (pipe.go 41-46); the embedded `content.Writer`
interface is never set and never called. -/
structure pipeWriter where
  desc : ocispec.Descriptor := {}
  status : content.Status := {}
  writer : Option io.PipeWriter := none
  deriving DecidableEq, Repr

/-- The method `pipeResolver.Resolve` (pipe.go 48-50): the embedded resolver, verbatim. -/
def pipeResolver.Resolve (p : pipeResolver) (ref : String) :
    String × ocispec.Descriptor × Option error :=
  p.Resolver ref

/-- The method `pipeResolver.Fetcher` (pipe.go 52-63): creates a pipe, keeps both
its ends, resolves `ref`; on success keeps the descriptor and returns the
resolver itself as the fetcher. -/
def pipeResolver.Fetcher (p : pipeResolver) (h : PipeHeap) (ref : String) :
    PipeHeap × pipeResolver × Option pipeResolver × Option error :=
  match io.Pipe h with
  | (h1, src, dst) =>
    let p1 := { p with reader := some src }
    let p2 := { p1 with writer := some dst }
    match p2.Resolve ref with
    | (_, _, some err) => (h1, p2, none, some err)
    | (_, desc, none) =>
      let p3 := { p2 with desc := desc }
      (h1, p3, some p3, none)

/-- The method `pipeResolver.Fetch` (pipe.go 65-67): the read end, whatever the
descriptor. -/
def pipeResolver.Fetch (p : pipeResolver) (_desc : ocispec.Descriptor) :
    Option io.PipeReader × Option error :=
  (p.reader, none)

/-- The method `pipeResolver.Pusher` (pipe.go 69-75). -/
def pipeResolver.Pusher (p : pipeResolver) (ref : String) : Option pipeWriter × Option error :=
  (some { desc := {}, status := { Ref := ref }, writer := p.writer }, none)

/-- The function `Pipe` (pipe.go 18-32). -/
def Pipe (h : PipeHeap) (source : remotes.Resolver) (ref : String) :
    PipeHeap × Option pipeResolver × Option pipeWriter × Option error :=
  let r : pipeResolver := { Resolver := source }
  match r.Fetcher h ref with
  | (h1, _, _, some e) => (h1, none, none, some e)
  | (h1, r1, f, none) =>
    match r1.Pusher ref with
    | (_, some e) => (h1, none, none, some e)
    | (p, none) => (h1, f, p, none)

/-- The method `pipeWriter.Push` (pipe.go 77-80): records the descriptor and
returns the writer itself. -/
def pipeWriter.Push (p : pipeWriter) (d : ocispec.Descriptor) : pipeWriter × Option error :=
  ({ p with desc := d }, none)

/-- The method `pipeWriter.Digest` (pipe.go 83-85). -/
def pipeWriter.Digest (p : pipeWriter) : digest.Digest :=
  p.desc.Digest

/-- The loop of `Commit` (pipe.go 92-97): the options are applied one after the
other to `base`; the first error ends the loop. -/
def commitOpts : List content.Opt → content.Info → content.Info × Option error
  | [], base => (base, none)
  | opt :: rest, base =>
    match opt base with
    | (base1, some err) => (base1, some err)
    | (base1, none) => commitOpts rest base1

/-- The method `pipeWriter.Commit` (pipe.go 91-108). -/
def pipeWriter.Commit (p : pipeWriter) (h : PipeHeap) (size : Int) (expected : digest.Digest)
    (opts : List content.Opt) : pipeWriter × PipeHeap × Outcome (Option error) :=
  match commitOpts opts {} with
  | (_, some err) => (p, h, .returned (some err))
  | (base, none) =>
    let p1 := { p with desc := { p.desc with Size := size } }
    let p2 := { p1 with desc := { p1.desc with Digest := expected } }
    let p3 := { p2 with desc := { p2.desc with Annotations := base.Labels } }
    let p4 := { p3 with status := { p3.status with Expected := expected } }
    let p5 := { p4 with status := { p4.status with Total := size } }
    let p6 := { p5 with status := { p5.status with Offset := size } }
    match io.PipeWriter.Close p6.writer h with
    | (h1, .panicked) => (p6, h1, .panicked)
    | (h1, .returned _) => (p6, h1, .returned none)

/-- The method `pipeWriter.Status` (pipe.go 111-113). -/
def pipeWriter.Status (p : pipeWriter) : content.Status × Option error :=
  (p.status, none)

/-- The method `pipeWriter.Truncate` (pipe.go 116-118). -/
def pipeWriter.Truncate (p : pipeWriter) (_size : Int) : pipeWriter × Option error :=
  (p, some "truncate is not enabled")

/-- The statements both branches of `Write` run (pipe.go 123-125 and 129-131). -/
def pipeWriter.advance (p : pipeWriter) (n : Int) (now : Time) : pipeWriter :=
  let p1 := { p with status := { p.status with Total := wrapInt64 (p.status.Total + n) } }
  let p2 := { p1 with status := { p1.status with Offset := p1.status.Total } }
  { p2 with status := { p2.status with UpdatedAt := now } }

/-- The method `pipeWriter.Write` (pipe.go 120-133). -/
def pipeWriter.Write (p : pipeWriter) (h : PipeHeap) (data : List UInt8)
    (accepted : Int × Option error) (now : Time) : pipeWriter × Outcome (Int × Option error) :=
  match io.PipeWriter.Write p.writer h data accepted with
  | .panicked => (p, .panicked)
  | .returned (n, some err) => (p.advance n now, .returned (n, some err))
  | .returned (n, none) => (p.advance n now, .returned (n, none))

/-- The method `pipeWriter.Close` (pipe.go 135-137). -/
def pipeWriter.Close (p : pipeWriter) (h : PipeHeap) : PipeHeap × Outcome (Option error) :=
  io.PipeWriter.Close p.writer h

/-- The writer `Commit` leaves once its loop is over: six assignments. -/
def committedWriter (p : pipeWriter) (size : Int) (expected : digest.Digest)
    (labels : List (String × String)) : pipeWriter :=
  { desc := { MediaType := p.desc.MediaType, Digest := expected, Size := size,
              Annotations := labels },
    status := { Ref := p.status.Ref, Offset := size, Total := size, Expected := expected,
                StartedAt := p.status.StartedAt, UpdatedAt := p.status.UpdatedAt },
    writer := p.writer }

/-! ## Sequences of calls on one push side -/

/-- One call on a push side, with its arguments and, for `Write`, the clock
reading and the answer an open pipe gives. -/
inductive Call where
  | push (d : ocispec.Descriptor)
  | write (data : List UInt8) (accepted : Int × Option error) (now : Time)
  | commit (size : Int) (expected : digest.Digest) (opts : List content.Opt)
  | truncate (size : Int)
  | status
  | digest
  | close

/-- The writer and the pipes after one call (a panic leaves what it had already
assigned). -/
def Call.run : Call → pipeWriter × PipeHeap → pipeWriter × PipeHeap
  | .push d, (p, h) => ((p.Push d).1, h)
  | .write data accepted now, (p, h) => ((p.Write h data accepted now).1, h)
  | .commit size expected opts, (p, h) =>
    ((p.Commit h size expected opts).1, (p.Commit h size expected opts).2.1)
  | .truncate size, (p, h) => ((p.Truncate size).1, h)
  | .status, (p, h) => (p, h)
  | .digest, (p, h) => (p, h)
  | .close, (p, h) => (p, (p.Close h).1)

/-- The writer and the pipes after a sequence of calls, first to last. -/
def runCalls (calls : List Call) (s : pipeWriter × PipeHeap) : pipeWriter × PipeHeap :=
  calls.foldl (fun acc c => c.run acc) s

/-- A `Commit` call whose options all succeed: the one kind of call that gets
past the loop and assigns the descriptor. -/
def Call.commits : Call → Prop
  | .commit _ _ opts => (commitOpts opts {}).2 = none
  | _ => False

/-- The digest last handed over by a `Push`, `d` being the one before call `c`. -/
def Call.pushed (c : Call) (d : digest.Digest) : digest.Digest :=
  match c with
  | .push desc => desc.Digest
  | _ => d

/-- Whether a call is a `Push`. -/
def Call.isPush : Call → Bool
  | .push _ => true
  | _ => false

/-- The digest handed over by the last `Push` of a sequence of calls, the empty
digest when it has none. -/
def lastPushedDigest (calls : List Call) : digest.Digest :=
  calls.foldl (fun d c => c.pushed d) ""

/-! ## The words of the specification about options -/

/-- The info record after applying every option of `opts` in order to `base`,
errors disregarded. -/
def infoAfter (opts : List content.Opt) (base : content.Info) : content.Info :=
  opts.foldl (fun b opt => (opt b).1) base

/-- Option number `k` of `opts` succeeds when its turn comes, the options before
it having been applied in order to `base`. -/
def succeedsAt (opts : List content.Opt) (base : content.Info) (k : Nat) : Prop :=
  ∀ opt, opts[k]? = some opt → (opt (infoAfter (opts.take k) base)).2 = none

/-- Option number `k` of `opts` fails with `e` when its turn comes. -/
def failsAt (opts : List content.Opt) (base : content.Info) (k : Nat) (e : error) : Prop :=
  ∃ opt, opts[k]? = some opt ∧ (opt (infoAfter (opts.take k) base)).2 = some e

/-- Every option of `opts` succeeds when its turn comes. -/
def allSucceed (opts : List content.Opt) (base : content.Info) : Prop :=
  ∀ k, succeedsAt opts base k

/-- Option number `k` is the first of `opts` to fail, and it fails with `e`. -/
def firstFailsAt (opts : List content.Opt) (base : content.Info) (k : Nat) (e : error) : Prop :=
  (∀ j, j < k → succeedsAt opts base j) ∧ failsAt opts base k e

/-! ## Sample values -/

/-- A resolver that knows one reference. -/
def sampleResolver : remotes.Resolver := fun ref =>
  if ref = "img:v1" then ("img:v1", { Digest := "d1", Size := 10 }, none)
  else ("", {}, some "not found")

/-- An option that always fails. -/
def failingOpt : content.Opt := fun base => (base, some "boom")

/-- An option that adds one label. -/
def labelOpt : content.Opt := fun base => ({ base with Labels := ("k", "v") :: base.Labels }, none)

/-! ## Lemmas on the option loop -/

theorem infoAfter_cons (opt : content.Opt) (rest : List content.Opt) (base : content.Info) :
    infoAfter (opt :: rest) base = infoAfter rest (opt base).1 := rfl

theorem succeedsAt_cons_zero (opt : content.Opt) (rest : List content.Opt) (base : content.Info) :
    succeedsAt (opt :: rest) base 0 ↔ (opt base).2 = none := by
  simp [succeedsAt, infoAfter]

theorem succeedsAt_cons_succ (opt : content.Opt) (rest : List content.Opt) (base : content.Info)
    (k : Nat) : succeedsAt (opt :: rest) base (k + 1) ↔ succeedsAt rest (opt base).1 k := by
  simp [succeedsAt, infoAfter]

theorem failsAt_cons_zero (opt : content.Opt) (rest : List content.Opt) (base : content.Info)
    (e : error) : failsAt (opt :: rest) base 0 e ↔ (opt base).2 = some e := by
  simp [failsAt, infoAfter]

theorem failsAt_cons_succ (opt : content.Opt) (rest : List content.Opt) (base : content.Info)
    (k : Nat) (e : error) :
    failsAt (opt :: rest) base (k + 1) e ↔ failsAt rest (opt base).1 k e := by
  simp [failsAt, infoAfter]

theorem not_failsAt_nil (base : content.Info) (k : Nat) (e : error) : ¬ failsAt [] base k e := by
  simp [failsAt]

theorem commitOpts_cons_ok (opt : content.Opt) (rest : List content.Opt) (base : content.Info)
    (hok : (opt base).2 = none) : commitOpts (opt :: rest) base = commitOpts rest (opt base).1 := by
  rcases hres : opt base with ⟨b1, r⟩
  rw [hres] at hok
  cases hok
  simp [commitOpts, hres]

theorem commitOpts_cons_err (opt : content.Opt) (rest : List content.Opt) (base : content.Info)
    (e : error) (herr : (opt base).2 = some e) :
    commitOpts (opt :: rest) base = ((opt base).1, some e) := by
  rcases hres : opt base with ⟨b1, r⟩
  rw [hres] at herr
  cases herr
  simp [commitOpts, hres]

/-- When every option succeeds in its turn, the loop runs to the end and leaves
the record that applying all of them in order gives. -/
theorem commitOpts_of_all_succeed (opts : List content.Opt) :
    ∀ base : content.Info, (∀ k, succeedsAt opts base k) →
      commitOpts opts base = (infoAfter opts base, none) := by
  induction opts with
  | nil => intro base _; rfl
  | cons opt rest ih =>
    intro base hall
    have h0 : (opt base).2 = none := (succeedsAt_cons_zero opt rest base).1 (hall 0)
    rw [commitOpts_cons_ok opt rest base h0, infoAfter_cons]
    exact ih _ (fun k => (succeedsAt_cons_succ opt rest base k).1 (hall (k + 1)))

/-- When option `k` is the first to fail, the loop ends there: it answers that
option's error and the record that the options up to and including `k` left,
whatever stands after `k` in the list. -/
theorem commitOpts_stops_at_first_failure (k : Nat) :
    ∀ (opts later : List content.Opt) (base : content.Info) (e : error),
      (∀ j, j < k → succeedsAt opts base j) → failsAt opts base k e →
      commitOpts (opts.take (k + 1) ++ later) base
        = (infoAfter (opts.take (k + 1)) base, some e) := by
  induction k with
  | zero =>
    intro opts later base e _ hfail
    cases opts with
    | nil => exact absurd hfail (not_failsAt_nil base 0 e)
    | cons opt rest =>
      have herr := (failsAt_cons_zero opt rest base e).1 hfail
      simp only [List.take_succ_cons, List.take_zero, List.cons_append, List.nil_append]
      rw [commitOpts_cons_err opt later base e herr]
      rfl
  | succ k ih =>
    intro opts later base e hbefore hfail
    cases opts with
    | nil => exact absurd hfail (not_failsAt_nil base (k + 1) e)
    | cons opt rest =>
      have h0 : (opt base).2 = none :=
        (succeedsAt_cons_zero opt rest base).1 (hbefore 0 (Nat.succ_pos k))
      simp only [List.take_succ_cons, List.cons_append]
      rw [commitOpts_cons_ok opt _ base h0, infoAfter_cons]
      exact ih rest later (opt base).1 e
        (fun j hj => (succeedsAt_cons_succ opt rest base j).1 (hbefore (j + 1) (Nat.succ_lt_succ hj)))
        ((failsAt_cons_succ opt rest base k e).1 hfail)

/-! ## Lemmas on `Commit` -/

theorem Commit_of_option_error (p : pipeWriter) (h : PipeHeap) (size : Int)
    (expected : digest.Digest) (opts : List content.Opt) (e : error)
    (herr : (commitOpts opts {}).2 = some e) :
    p.Commit h size expected opts = (p, h, .returned (some e)) := by
  rcases hres : commitOpts opts {} with ⟨b, r⟩
  rw [hres] at herr
  cases herr
  simp [pipeWriter.Commit, hres]

theorem Commit_of_options_ok (p : pipeWriter) (h : PipeHeap) (size : Int)
    (expected : digest.Digest) (opts : List content.Opt) (base : content.Info)
    (hok : commitOpts opts {} = (base, none)) :
    (p.Commit h size expected opts).1 = committedWriter p size expected base.Labels ∧
    (p.Commit h size expected opts).2.1 = (io.PipeWriter.Close p.writer h).1 ∧
    (p.Commit h size expected opts).2.2 =
      (match (io.PipeWriter.Close p.writer h).2 with
        | .panicked => .panicked
        | .returned _ => .returned none) := by
  rcases hc : io.PipeWriter.Close p.writer h with ⟨h1, r⟩
  cases r <;> simp [pipeWriter.Commit, hok, hc, committedWriter]

theorem Close_some (pw : io.PipeWriter) (h : PipeHeap) :
    (io.PipeWriter.Close (some pw) h).2 = .returned none ∧
    (io.PipeWriter.Close (some pw) h).1.writeClosed pw.pipe = true ∧
    (io.PipeWriter.Close (some pw) h).1.next = h.next ∧
    ∀ id, h.writeClosed id = true → (io.PipeWriter.Close (some pw) h).1.writeClosed id = true := by
  by_cases hcl : h.writeClosed pw.pipe = true
  · simp [io.PipeWriter.Close, hcl]
  · simp only [io.PipeWriter.Close, hcl]
    simp [PipeHeap.writeClosed]
    intro id hid
    exact Or.inr hid

theorem allSucceed_labelOpt : allSucceed [labelOpt] {} := by
  intro k
  cases k <;> simp [succeedsAt, labelOpt]

theorem firstFailsAt_sample : firstFailsAt [labelOpt, failingOpt, labelOpt] {} 1 "boom" := by
  refine ⟨fun j hj => ?_, ?_⟩
  · have hj0 : j = 0 := by omega
    subst hj0
    simp [succeedsAt, labelOpt]
  · simp [failsAt, failingOpt]

/-! ## Commit -/

/-- C2, as the claim states it, fails: on the push side that `Pusher` answers on
a pipeResolver just built, whose write end is unset, a `Commit` whose options all
succeed does not return a nil error, it panics at the close of the write end. -/
theorem Commit_unset_write_end_panics :
    (pipeResolver.Pusher { Resolver := sampleResolver } "img:v1").1
      = some { status := { Ref := "img:v1" } } ∧
    allSucceed [labelOpt] {} ∧
    (pipeWriter.Commit { status := { Ref := "img:v1" } } {} 10 "d1" [labelOpt]).2.2
      = .panicked ∧
    ¬ ∃ p1 h1, pipeWriter.Commit { status := { Ref := "img:v1" } } {} 10 "d1" [labelOpt]
        = (p1, h1, .returned none) := by
  refine ⟨rfl, allSucceed_labelOpt, rfl, ?_⟩
  rintro ⟨p1, h1, hret⟩
  have hpanic : (pipeWriter.Commit { status := { Ref := "img:v1" } } {} 10 "d1" [labelOpt]).2.2
      = .panicked := rfl
  rw [hret] at hpanic
  cases hpanic

/-- C2, amended: when the write end of the writer is set (not nil) and every
option succeeds, `Commit` returns a nil error; total and offset become `size`,
the expected digest becomes `expected`, the descriptor takes `size`, `expected`
and the labels the options collected in order from an empty info record; the
write end is closed; the reference, the timestamps, the media type and the
binding are as before, no pipe is created and no other write end changes from
closed to open. -/
theorem Commit_success (p : pipeWriter) (h : PipeHeap) (size : Int) (expected : digest.Digest)
    (opts : List content.Opt) (pw : io.PipeWriter)
    (hw : p.writer = some pw) (hall : allSucceed opts {}) :
    ∃ p1 h1, p.Commit h size expected opts = (p1, h1, .returned none) ∧
      (p1.Status).1.Total = size ∧ (p1.Status).1.Offset = size ∧
      (p1.Status).1.Expected = expected ∧
      p1.desc.Size = size ∧ p1.desc.Digest = expected ∧
      p1.desc.Annotations = (infoAfter opts {}).Labels ∧
      h1.writeClosed pw.pipe = true ∧
      (p1.Status).1.Ref = (p.Status).1.Ref ∧ p1.desc.MediaType = p.desc.MediaType ∧
      p1.status.StartedAt = p.status.StartedAt ∧ p1.status.UpdatedAt = p.status.UpdatedAt ∧
      p1.writer = p.writer ∧ h1.next = h.next ∧
      (∀ id, h.writeClosed id = true → h1.writeClosed id = true) := by
  have hloop := commitOpts_of_all_succeed opts {} hall
  obtain ⟨hp, hh, hr⟩ := Commit_of_options_ok p h size expected opts _ hloop
  obtain ⟨c1, c2, c3, c4⟩ := Close_some pw h
  rw [hw] at hh hr
  rw [c1] at hr
  refine ⟨(p.Commit h size expected opts).1, (p.Commit h size expected opts).2.1, ?_, ?_⟩
  · exact Prod.ext rfl (Prod.ext rfl hr)
  · rw [hp, hh]
    exact ⟨rfl, rfl, rfl, rfl, rfl, rfl, c2, rfl, rfl, rfl, rfl, rfl, c3, c4⟩

theorem Commit_success_witness :
    allSucceed [labelOpt] {} ∧
    ∃ p1 h1, pipeWriter.Commit { writer := some ⟨0⟩ } { next := 1 } 10 "d1" [labelOpt]
        = (p1, h1, .returned none) ∧
      (p1.Status).1.Total = 10 ∧ (p1.Status).1.Offset = 10 ∧
      (p1.Status).1.Expected = "d1" ∧
      p1.desc.Size = 10 ∧ p1.desc.Digest = "d1" ∧
      p1.desc.Annotations = (infoAfter [labelOpt] {}).Labels ∧
      h1.writeClosed 0 = true :=
  ⟨allSucceed_labelOpt,
    match Commit_success { writer := some ⟨0⟩ } { next := 1 } 10 "d1" [labelOpt] ⟨0⟩ rfl
        allSucceed_labelOpt with
    | ⟨p1, h1, a, b, c, d, e, f, g, i, _⟩ => ⟨p1, h1, a, b, c, d, e, f, g, i⟩⟩

/-- C3: when option `k` is the first to fail and fails with `e`, the option loop
stops right there: it ends with `e` and with the info record that the options up
to and including `k`, applied in order, left, so no later option has been
applied, and this whatever stands after `k`; `Commit` returns exactly `e` and
leaves the writer (status, descriptor, binding) and every pipe as they were, so a
write end that was open stays open. -/
theorem Commit_option_failure (p : pipeWriter) (h : PipeHeap) (size : Int)
    (expected : digest.Digest) (opts : List content.Opt) (k : Nat) (e : error)
    (hfail : firstFailsAt opts {} k e) :
    commitOpts opts {} = (infoAfter (opts.take (k + 1)) {}, some e) ∧
    (∀ later, commitOpts (opts.take (k + 1) ++ later) {}
        = (infoAfter (opts.take (k + 1)) {}, some e)) ∧
    p.Commit h size expected opts = (p, h, .returned (some e)) ∧
    (∀ later, p.Commit h size expected (opts.take (k + 1) ++ later)
        = (p, h, .returned (some e))) ∧
    (∀ pw, p.writer = some pw → h.writeClosed pw.pipe = false →
        (p.Commit h size expected opts).2.1.writeClosed pw.pipe = false) := by
  have hloop : ∀ later, commitOpts (opts.take (k + 1) ++ later) {}
      = (infoAfter (opts.take (k + 1)) {}, some e) := fun later =>
    commitOpts_stops_at_first_failure k opts later {} e hfail.1 hfail.2
  have hloopself : commitOpts opts {} = (infoAfter (opts.take (k + 1)) {}, some e) := by
    have := hloop (opts.drop (k + 1))
    rwa [List.take_append_drop] at this
  have hany : ∀ later, p.Commit h size expected (opts.take (k + 1) ++ later)
      = (p, h, .returned (some e)) := fun later =>
    Commit_of_option_error p h size expected _ e (by rw [hloop later])
  have hself : p.Commit h size expected opts = (p, h, .returned (some e)) :=
    Commit_of_option_error p h size expected _ e (by rw [hloopself])
  refine ⟨hloopself, hloop, hself, hany, ?_⟩
  intro pw _ hopen
  rw [hself]
  exact hopen

theorem Commit_option_failure_witness :
    firstFailsAt [labelOpt, failingOpt, labelOpt] {} 1 "boom" ∧
    commitOpts [labelOpt, failingOpt, labelOpt] {}
      = (infoAfter [labelOpt, failingOpt] {}, some "boom") ∧
    (infoAfter [labelOpt, failingOpt] {}).Labels = [("k", "v")] ∧
    pipeWriter.Commit { writer := some ⟨0⟩ } { next := 1 } 10 "d1"
        [labelOpt, failingOpt, labelOpt]
      = ({ writer := some ⟨0⟩ }, { next := 1 }, .returned (some "boom")) :=
  ⟨firstFailsAt_sample,
    (Commit_option_failure { writer := some ⟨0⟩ } { next := 1 } 10 "d1"
      [labelOpt, failingOpt, labelOpt] 1 "boom" firstFailsAt_sample).1,
    rfl,
    (Commit_option_failure { writer := some ⟨0⟩ } { next := 1 } 10 "d1"
      [labelOpt, failingOpt, labelOpt] 1 "boom" firstFailsAt_sample).2.2.1⟩

/-- C4: the doc comment of `Commit` promises that the writer is closed even on
error, yet on the push side that `Pipe` returns for a resolvable reference a
`Commit` whose option fails returns that error with the write end still open. -/
theorem Commit_failure_leaves_write_end_open :
    ∃ h1 f p, Pipe {} sampleResolver "img:v1" = (h1, some f, some p, none) ∧
      p.writer = some ⟨0⟩ ∧ h1.writeClosed 0 = false ∧
      p.Commit h1 10 "d1" [failingOpt] = (p, h1, .returned (some "boom")) ∧
      (p.Commit h1 10 "d1" [failingOpt]).2.1.writeClosed 0 = false :=
  ⟨_, _, _, rfl, rfl, rfl, rfl, rfl⟩

/-! ## Lemmas on sequences of calls -/

theorem Pusher_eq (r : pipeResolver) (ref : String) :
    r.Pusher ref = (some { desc := {}, status := { Ref := ref }, writer := r.writer }, none) := rfl

theorem runCalls_cons (c : Call) (calls : List Call) (s : pipeWriter × PipeHeap) :
    runCalls (c :: calls) s = runCalls calls (c.run s) := rfl

/-- The writer after `Write`: untouched on a panic, advanced by the count otherwise. -/
theorem Write_writer (p : pipeWriter) (h : PipeHeap) (data : List UInt8)
    (accepted : Int × Option error) (now : Time) :
    (p.Write h data accepted now).1 = p ∨
    ∃ n, (p.Write h data accepted now).1 = p.advance n now := by
  unfold pipeWriter.Write
  rcases io.PipeWriter.Write p.writer h data accepted with ⟨n, _ | err⟩ | _
  · exact Or.inr ⟨n, rfl⟩
  · exact Or.inr ⟨n, rfl⟩
  · exact Or.inl rfl

/-- The writer after `Commit`: untouched when an option fails, the six
assignments otherwise. -/
theorem Commit_writer (p : pipeWriter) (h : PipeHeap) (size : Int) (expected : digest.Digest)
    (opts : List content.Opt) :
    ((commitOpts opts {}).2 ≠ none ∧ (p.Commit h size expected opts).1 = p) ∨
    ((commitOpts opts {}).2 = none ∧
      (p.Commit h size expected opts).1
        = committedWriter p size expected (commitOpts opts {}).1.Labels) := by
  rcases hres : commitOpts opts {} with ⟨base, _ | e⟩
  · exact Or.inr ⟨rfl, (Commit_of_options_ok p h size expected opts base hres).1⟩
  · refine Or.inl ⟨by simp, ?_⟩
    rw [Commit_of_option_error p h size expected opts e (by rw [hres])]

/-- One call keeps offset and total equal. -/
theorem Call.run_offset_eq_total (c : Call) (s : pipeWriter × PipeHeap)
    (hinv : s.1.status.Offset = s.1.status.Total) :
    (c.run s).1.status.Offset = (c.run s).1.status.Total := by
  obtain ⟨p, h⟩ := s
  cases c with
  | push d => exact hinv
  | write data accepted now =>
    rcases Write_writer p h data accepted now with hw | ⟨n, hw⟩
    · simp only [Call.run, hw]; exact hinv
    · simp only [Call.run, hw]; rfl
  | commit size expected opts =>
    rcases Commit_writer p h size expected opts with ⟨_, hw⟩ | ⟨_, hw⟩
    · simp only [Call.run, hw]; exact hinv
    · simp only [Call.run, hw]; rfl
  | truncate size => exact hinv
  | status => exact hinv
  | digest => exact hinv
  | close => exact hinv

/-- Any sequence of calls keeps offset and total equal. -/
theorem runCalls_offset_eq_total (calls : List Call) :
    ∀ s : pipeWriter × PipeHeap, s.1.status.Offset = s.1.status.Total →
      (runCalls calls s).1.status.Offset = (runCalls calls s).1.status.Total := by
  induction calls with
  | nil => intro s hinv; exact hinv
  | cons c rest ih =>
    intro s hinv
    rw [runCalls_cons]
    exact ih _ (c.run_offset_eq_total s hinv)

/-- The digest after one call that is no `Commit` getting past its options. -/
theorem Call.run_digest (c : Call) (s : pipeWriter × PipeHeap) (hno : ¬ c.commits) :
    (c.run s).1.Digest = c.pushed s.1.Digest := by
  obtain ⟨p, h⟩ := s
  cases c with
  | push d => rfl
  | write data accepted now =>
    rcases Write_writer p h data accepted now with hw | ⟨n, hw⟩
    · simp only [Call.run, hw]; rfl
    · simp only [Call.run, hw]; rfl
  | commit size expected opts =>
    rcases Commit_writer p h size expected opts with ⟨_, hw⟩ | ⟨hok, _⟩
    · simp only [Call.run, hw]; rfl
    · exact absurd hok hno
  | truncate size => rfl
  | status => rfl
  | digest => rfl
  | close => rfl

/-- The digest after a sequence of calls none of which is a `Commit` getting past
its options: the last pushed one, or the one the writer started with. -/
theorem runCalls_digest (calls : List Call) :
    ∀ s : pipeWriter × PipeHeap, (∀ c ∈ calls, ¬ c.commits) →
      (runCalls calls s).1.Digest = calls.foldl (fun d c => c.pushed d) s.1.Digest := by
  induction calls with
  | nil => intro s _; rfl
  | cons c rest ih =>
    intro s hno
    rw [runCalls_cons, ih (c.run s) (fun c1 hc1 => hno c1 (List.mem_cons_of_mem c hc1)),
      c.run_digest s (hno c (List.mem_cons_self c rest)), List.foldl_cons]

theorem foldl_pushed_of_no_push (calls : List Call) :
    ∀ d : digest.Digest, (∀ c ∈ calls, c.isPush = false) →
      calls.foldl (fun d c => c.pushed d) d = d := by
  induction calls with
  | nil => intro d _; rfl
  | cons c rest ih =>
    intro d hno
    rw [List.foldl_cons, ih _ (fun c1 hc1 => hno c1 (List.mem_cons_of_mem c hc1))]
    have hc := hno c (List.mem_cons_self c rest)
    cases c <;> first | rfl | simp [Call.isPush] at hc

theorem wrapInt64_of_fits (x : Int) (hlo : -(2 ^ 63) ≤ x) (hhi : x < 2 ^ 63) :
    wrapInt64 x = x := by
  unfold wrapInt64
  omega

/-- What `Write` does once the forwarding call has returned. -/
theorem Write_of_forwarded (p : pipeWriter) (h : PipeHeap) (data : List UInt8)
    (accepted : Int × Option error) (now : Time) (n : Int) (err : Option error)
    (hfw : io.PipeWriter.Write p.writer h data accepted = .returned (n, err)) :
    p.Write h data accepted now = (p.advance n now, .returned (n, err)) := by
  unfold pipeWriter.Write
  rw [hfw]
  cases err <;> rfl

/-! ## Digest -/

/-- C5, as the claim states it, fails: a push side fresh from `Pusher` that is
handed a descriptor by `Push` answers that descriptor's digest, not the empty
one, though no `Commit` has been called. -/
theorem Digest_after_Push_not_empty :
    ∃ p0, (pipeResolver.Pusher { Resolver := sampleResolver } "img:v1").1 = some p0 ∧
      (∀ c ∈ [Call.push { Digest := "d1" }], ¬ c.commits) ∧
      (runCalls [Call.push { Digest := "d1" }] (p0, {})).1.Digest = "d1" ∧
      (runCalls [Call.push { Digest := "d1" }] (p0, {})).1.Digest ≠ "" := by
  refine ⟨_, rfl, ?_, rfl, ?_⟩
  · intro c hc
    rw [List.mem_singleton] at hc
    subst hc
    exact fun hcommits => hcommits
  · show ("d1" : String) ≠ ""
    decide

/-- C5, amended: on a push side obtained from `Pusher`, after any sequence of
calls none of which is a `Commit` whose options all succeed, `Digest` answers the
digest of the descriptor handed to the last `Push`, and the empty digest when the
sequence has no `Push`; and right after a `Commit(size, d, opts)` that returned a
nil error, on any writer, `Digest` answers `d`. -/
theorem Digest_of_calls (r : pipeResolver) (ref : String) (p0 : pipeWriter) (h0 : PipeHeap)
    (calls : List Call) (hp : (r.Pusher ref).1 = some p0) (hno : ∀ c ∈ calls, ¬ c.commits) :
    (runCalls calls (p0, h0)).1.Digest = lastPushedDigest calls ∧
    ((∀ c ∈ calls, c.isPush = false) → (runCalls calls (p0, h0)).1.Digest = "") ∧
    (∀ (p : pipeWriter) (h : PipeHeap) (size : Int) (d : digest.Digest) (opts : List content.Opt),
      (p.Commit h size d opts).2.2 = .returned none → (p.Commit h size d opts).1.Digest = d) := by
  have hp0 : p0 = { desc := {}, status := { Ref := ref }, writer := r.writer } := by
    rw [Pusher_eq] at hp
    exact (Option.some.inj hp).symm
  have hrun : (runCalls calls (p0, h0)).1.Digest = lastPushedDigest calls := by
    rw [runCalls_digest calls (p0, h0) hno, hp0]
    rfl
  refine ⟨hrun, ?_, ?_⟩
  · intro hnopush
    rw [hrun]
    exact foldl_pushed_of_no_push calls "" hnopush
  · intro p h size d opts hret
    rcases Commit_writer p h size d opts with ⟨hfail, _⟩ | ⟨_, hw⟩
    · obtain ⟨e, he⟩ := Option.ne_none_iff_exists'.1 hfail
      rw [Commit_of_option_error p h size d opts e he] at hret
      cases hret
    · rw [hw]
      rfl

theorem Digest_of_calls_witness :
    (pipeResolver.Pusher { Resolver := sampleResolver } "img:v1").1
      = some { status := { Ref := "img:v1" } } ∧
    (runCalls [Call.push { Digest := "d1" }, Call.truncate 3, Call.commit 4 "d2" [failingOpt]]
      ({ status := { Ref := "img:v1" } }, {})).1.Digest = "d1" :=
  ⟨rfl,
    (Digest_of_calls { Resolver := sampleResolver } "img:v1" { status := { Ref := "img:v1" } } {}
      [Call.push { Digest := "d1" }, Call.truncate 3, Call.commit 4 "d2" [failingOpt]] rfl
      (by
        intro c hc
        simp only [List.mem_cons, List.mem_singleton, List.not_mem_nil, or_false] at hc
        rcases hc with hc | hc | hc <;> subst hc
        · exact fun hcommits => hcommits
        · exact fun hcommits => hcommits
        · simp [Call.commits, commitOpts, failingOpt])).1⟩

/-! ## Write -/

/-- C6: on any writer reached from `Pusher` by any sequence of calls, when the
forwarding call to the pipe's write end answers `(n, err)`, `Write` returns
exactly `(n, err)`, with or without error; total and offset each advance by `n`
in 64-bit arithmetic, which is by exactly `n` whenever the sum fits in an int64;
apart from the update timestamp, which becomes the clock reading, no status
field, no descriptor field and not the binding changes. -/
theorem Write_advances (r : pipeResolver) (ref : String) (p0 : pipeWriter) (h0 : PipeHeap)
    (calls : List Call) (p : pipeWriter) (h : PipeHeap)
    (hp : (r.Pusher ref).1 = some p0) (hrun : runCalls calls (p0, h0) = (p, h))
    (data : List UInt8) (accepted : Int × Option error) (now : Time)
    (n : Int) (err : Option error)
    (hfw : io.PipeWriter.Write p.writer h data accepted = .returned (n, err)) :
    ∃ p1, p.Write h data accepted now = (p1, .returned (n, err)) ∧
      (p1.Status).1.Total = wrapInt64 ((p.Status).1.Total + n) ∧
      (p1.Status).1.Offset = wrapInt64 ((p.Status).1.Offset + n) ∧
      (-(2 ^ 63) ≤ (p.Status).1.Total + n → (p.Status).1.Total + n < 2 ^ 63 →
        (p1.Status).1.Total = (p.Status).1.Total + n ∧
        (p1.Status).1.Offset = (p.Status).1.Offset + n) ∧
      (p1.Status).1.Ref = (p.Status).1.Ref ∧
      (p1.Status).1.Expected = (p.Status).1.Expected ∧
      (p1.Status).1.StartedAt = (p.Status).1.StartedAt ∧
      (p1.Status).1.UpdatedAt = now ∧
      p1.desc = p.desc ∧ p1.writer = p.writer := by
  have hp0 : p0.status.Offset = p0.status.Total := by
    rw [Pusher_eq] at hp
    rw [← Option.some.inj hp]
  have hinv : p.status.Offset = p.status.Total := by
    have := runCalls_offset_eq_total calls (p0, h0) hp0
    rwa [hrun] at this
  have hoff : (p.advance n now).status.Offset = wrapInt64 (p.status.Offset + n) := by
    rw [hinv]
    rfl
  refine ⟨p.advance n now, Write_of_forwarded p h data accepted now n err hfw, rfl, hoff, ?_,
    rfl, rfl, rfl, rfl, rfl, rfl⟩
  intro hlo hhi
  have hfit : wrapInt64 (p.status.Total + n) = p.status.Total + n :=
    wrapInt64_of_fits _ hlo hhi
  refine ⟨hfit, ?_⟩
  show (p.advance n now).status.Offset = p.status.Offset + n
  rw [hoff, hinv]
  exact hfit

theorem Write_advances_witness :
    io.PipeWriter.Write (some ⟨0⟩) { next := 1 } [4, 5] (1, some "reader gone")
      = .returned (1, some "reader gone") ∧
    ∃ p1, pipeWriter.Write
        (runCalls [Call.write [1, 2, 3] (3, none) 5]
          ({ status := { Ref := "img:v1" }, writer := some ⟨0⟩ }, { next := 1 })).1
        { next := 1 } [4, 5] (1, some "reader gone") 7
        = (p1, .returned (1, some "reader gone")) ∧
      (p1.Status).1.Total = 4 ∧ (p1.Status).1.Offset = 4 :=
  ⟨rfl,
    match Write_advances { Resolver := sampleResolver, writer := some ⟨0⟩ } "img:v1"
        { status := { Ref := "img:v1" }, writer := some ⟨0⟩ } { next := 1 }
        [Call.write [1, 2, 3] (3, none) 5] _ { next := 1 } rfl rfl
        [4, 5] (1, some "reader gone") 7 1 (some "reader gone") rfl with
    | ⟨p1, hret, _, _, hfit, _⟩ =>
      ⟨p1, hret, (hfit (by decide) (by decide)).1, (hfit (by decide) (by decide)).2⟩⟩

/-! ## Truncate -/

/-- C7: `Truncate` answers the error "truncate is not enabled" whatever the size,
and leaves the writer (status, descriptor, binding) and the pipes as they were. -/
theorem Truncate_not_supported (p : pipeWriter) (h : PipeHeap) (size : Int) :
    (p.Truncate size).2 = some "truncate is not enabled" ∧
    (p.Truncate size).2 ≠ none ∧
    (p.Truncate size).1 = p ∧
    (Call.truncate size).run (p, h) = (p, h) :=
  ⟨rfl, by simp [pipeWriter.Truncate], rfl, rfl⟩

/-! ## Pipe and Pusher -/

theorem Pipe_of_resolve_error (h : PipeHeap) (source : remotes.Resolver) (ref : String)
    (e : error) (herr : (source ref).2.2 = some e) :
    Pipe h source ref = ({ h with next := h.next + 1 }, none, none, some e) := by
  rcases hres : source ref with ⟨name, desc, r⟩
  rw [hres] at herr
  cases herr
  simp [Pipe, pipeResolver.Fetcher, pipeResolver.Resolve, io.Pipe, hres]

theorem Pipe_of_resolve_ok (h : PipeHeap) (source : remotes.Resolver) (ref : String)
    (hok : (source ref).2.2 = none) :
    Pipe h source ref =
      ({ h with next := h.next + 1 },
        some { desc := (source ref).2.1, writer := some ⟨h.next⟩, reader := some ⟨h.next⟩,
               Resolver := source },
        some { desc := {}, status := { Ref := ref }, writer := some ⟨h.next⟩ },
        none) := by
  rcases hres : source ref with ⟨name, desc, r⟩
  rw [hres] at hok
  cases hok
  simp [Pipe, pipeResolver.Fetcher, pipeResolver.Resolve, pipeResolver.Pusher, io.Pipe, hres]

/-- C8: `Pipe` fails exactly when the resolver fails on `ref`, and then answers
the resolver's error with neither side; otherwise it answers both sides and a nil
error: `Fetch`, whatever the descriptor, hands out the read end of the pipe that
this call created (its number is the first one unused before the call), the push
side is bound to the write end of that same pipe, no write end is closed by the
call, and the push side starts with the reference `ref`, total and offset zero. -/
theorem Pipe_spec (h : PipeHeap) (source : remotes.Resolver) (ref : String) :
    ((Pipe h source ref).2.2.2 ≠ none ↔ (source ref).2.2 ≠ none) ∧
    (∀ e, (source ref).2.2 = some e → (Pipe h source ref).2 = (none, none, some e)) ∧
    ((source ref).2.2 = none →
      ∃ f p, (Pipe h source ref).2 = (some f, some p, none) ∧
        (∀ d, f.Fetch d = (some ⟨h.next⟩, none)) ∧
        p.writer = some ⟨h.next⟩ ∧
        (Pipe h source ref).1.next = h.next + 1 ∧
        (Pipe h source ref).1.closedW = h.closedW ∧
        (p.Status).1.Ref = ref ∧ (p.Status).1.Total = 0 ∧ (p.Status).1.Offset = 0) := by
  refine ⟨?_, ?_, ?_⟩
  · rcases hres : (source ref).2.2 with _ | e
    · rw [Pipe_of_resolve_ok h source ref hres]
    · rw [Pipe_of_resolve_error h source ref e hres]
  · intro e herr
    rw [Pipe_of_resolve_error h source ref e herr]
  · intro hok
    rw [Pipe_of_resolve_ok h source ref hok]
    exact ⟨_, _, rfl, fun _ => rfl, rfl, rfl, rfl, rfl, rfl, rfl⟩

theorem Pipe_spec_witness :
    (sampleResolver "img:v2").2.2 = some "not found" ∧
    (Pipe { next := 2 } sampleResolver "img:v2").2 = (none, none, some "not found") ∧
    (sampleResolver "img:v1").2.2 = none ∧
    ∃ f p, (Pipe { next := 2 } sampleResolver "img:v1").2 = (some f, some p, none) ∧
      f.Fetch { Digest := "other" } = (some ⟨2⟩, none) ∧ p.writer = some ⟨2⟩ :=
  ⟨rfl, (Pipe_spec { next := 2 } sampleResolver "img:v2").2.1 "not found" rfl, rfl,
    match (Pipe_spec { next := 2 } sampleResolver "img:v1").2.2 rfl with
    | ⟨f, p, hpipe, hfetch, hwriter, _⟩ => ⟨f, p, hpipe, hfetch { Digest := "other" }, hwriter⟩⟩

/-- C9, as the claim states it, fails: on a pipeResolver just built, `Fetcher`
never called, `Pusher` answers a nil error together with a push side whose write
end is unset. -/
theorem Pusher_before_Fetcher_unreported :
    ∃ p, pipeResolver.Pusher { Resolver := sampleResolver } "img:v1" = (some p, none) ∧
      p.writer = none :=
  ⟨_, rfl, rfl⟩

/-- C9, amended: on a pipeResolver just built, `Fetcher` never called, `Pusher`
answers a nil error and a push side with an unset write end, reference `ref`,
total and offset zero; nothing is reported by `Pusher`, and the first use of the
write end panics: `Write`, `Close`, and a `Commit` whose options all succeed. -/
theorem Pusher_before_Fetcher (source : remotes.Resolver) (ref : String) (h : PipeHeap) :
    ∃ p, pipeResolver.Pusher { Resolver := source } ref = (some p, none) ∧
      p.writer = none ∧
      (p.Status).1.Ref = ref ∧ (p.Status).1.Total = 0 ∧ (p.Status).1.Offset = 0 ∧
      (∀ data accepted now, (p.Write h data accepted now).2 = .panicked) ∧
      (p.Close h).2 = .panicked ∧
      (∀ size d opts, allSucceed opts {} → (p.Commit h size d opts).2.2 = .panicked) := by
  refine ⟨_, rfl, rfl, rfl, rfl, rfl, fun _ _ _ => rfl, rfl, ?_⟩
  intro size d opts hall
  rw [(Commit_of_options_ok _ h size d opts _ (commitOpts_of_all_succeed opts {} hall)).2.2]
  rfl

theorem Pusher_before_Fetcher_witness :
    ∃ p, pipeResolver.Pusher { Resolver := sampleResolver } "img:v1" = (some p, none) ∧
      p.writer = none ∧ (p.Commit {} 10 "d1" []).2.2 = .panicked :=
  match Pusher_before_Fetcher sampleResolver "img:v1" {} with
  | ⟨p, hp, hw, _, _, _, _, _, hcommit⟩ =>
    ⟨p, hp, hw, hcommit 10 "d1" [] (fun k => by simp [succeedsAt])⟩

/-! ## The invariant of the status -/

/-- C10: offset and total are equal on every push side: both are zero on the
writer `Pusher` answers, every single call (Push, Write, Commit, Truncate,
Status, Digest, Close, with any arguments and any answer of the pipe) keeps them
equal, and so they are equal after any sequence of calls. -/
theorem Offset_eq_Total (r : pipeResolver) (ref : String) (p0 : pipeWriter) (h0 : PipeHeap)
    (hp : (r.Pusher ref).1 = some p0) :
    (p0.Status).1.Offset = 0 ∧ (p0.Status).1.Total = 0 ∧
    (∀ (c : Call) (s : pipeWriter × PipeHeap),
      (s.1.Status).1.Offset = (s.1.Status).1.Total →
      ((c.run s).1.Status).1.Offset = ((c.run s).1.Status).1.Total) ∧
    (∀ calls : List Call,
      ((runCalls calls (p0, h0)).1.Status).1.Offset
        = ((runCalls calls (p0, h0)).1.Status).1.Total) := by
  have hp0 : p0 = { desc := {}, status := { Ref := ref }, writer := r.writer } := by
    rw [Pusher_eq] at hp
    exact (Option.some.inj hp).symm
  subst hp0
  exact ⟨rfl, rfl, fun c s hinv => c.run_offset_eq_total s hinv,
    fun calls => runCalls_offset_eq_total calls _ rfl⟩

theorem Offset_eq_Total_witness :
    (pipeResolver.Pusher { Resolver := sampleResolver, writer := some ⟨0⟩ } "img:v1").1
      = some { status := { Ref := "img:v1" }, writer := some ⟨0⟩ } ∧
    ((runCalls [Call.write [1, 2] (2, none) 3, Call.commit 9 "d1" [], Call.write [7] (1, none) 4]
        ({ status := { Ref := "img:v1" }, writer := some ⟨0⟩ }, { next := 1 })).1.Status).1.Offset
      = ((runCalls
        [Call.write [1, 2] (2, none) 3, Call.commit 9 "d1" [], Call.write [7] (1, none) 4]
        ({ status := { Ref := "img:v1" }, writer := some ⟨0⟩ }, { next := 1 })).1.Status).1.Total :=
  ⟨rfl,
    (Offset_eq_Total { Resolver := sampleResolver, writer := some ⟨0⟩ } "img:v1"
      { status := { Ref := "img:v1" }, writer := some ⟨0⟩ } { next := 1 } rfl).2.2.2
      [Call.write [1, 2] (2, none) 3, Call.commit 9 "d1" [], Call.write [7] (1, none) 4]⟩

end Remotes
